import Mathlib

/-!
Verification of the tach-core test runner against its specification.

This file shallowly embeds the parts of the Rust source that the checked
claims are about:

* `src/snapshot.rs` — memory-region eligibility (`should_snapshot`),
  page alignment (`align_to_page`), golden-page capture
  (`capture_region_pages`) and fault resolution (`handle_fault`);
* `src/protocol.rs` — message truncation (`truncate_message`),
  `TestResult` constructors, and the bincode wire encoding of
  `TestPayload` with the `encode_with_length` framing;
* `src/scheduler.rs` — the reporter translation performed by
  `try_collect_result_for_reporter`, the stale-worker branch of
  `Scheduler::run`, and the bookkeeping transitions of the run loop;
* `src/zygote.rs` / `src/isolation.rs` / `src/main.rs` — the action
  sequence of the worker fork branch and of `setup_filesystem`.

Machine integers are modelled as `Nat`/`Int` with explicit reductions
modulo `2 ^ w` where the source relies on fixed-width behaviour; Rust
strings are modelled either as `List Char` (where UTF-8 byte boundaries
matter) or as raw byte lists `List Nat` (where only the bytes travel on
the wire); fallible operations return `Option`.
-/

namespace Tach

/-! ## Generic helpers: Rust `str::contains` on character lists -/

/-- Does `s` start with the segment `pat`?  (Helper for substring search.) -/
def hasPrefixSeg : List Char → List Char → Bool
  | _, [] => true
  | [], _ :: _ => false
  | c :: cs, p :: ps => c == p && hasPrefixSeg cs ps

/-- Substring containment, the model of Rust `str::contains` used by
`MemoryRegion::should_snapshot` in `src/snapshot.rs`. -/
def sContains : List Char → List Char → Bool
  | s, pat =>
    hasPrefixSeg s pat ||
      match s with
      | [] => false
      | _ :: cs => sContains cs pat

/-! ## snapshot.rs: page size and alignment -/

/-- `src/snapshot.rs` line 22: `const PAGE_SIZE: usize = 4096`. -/
def PAGE_SIZE : Nat := 4096

/-- Bitwise NOT on a 64-bit `usize`, as used by `!(PAGE_SIZE - 1)`. -/
def usizeNot (x : Nat) : Nat := (2 ^ 64 - 1) ^^^ x

/-- `src/snapshot.rs` lines 210-212: `addr & !(PAGE_SIZE - 1)`. -/
def align_to_page (addr : Nat) : Nat := addr &&& usizeNot (PAGE_SIZE - 1)

theorem align_to_page_eq (addr : Nat) (h : addr < 2 ^ 64) :
    align_to_page addr = PAGE_SIZE * (addr / PAGE_SIZE) := by
  apply Nat.eq_of_testBit_eq
  intro i
  have hps : PAGE_SIZE = 2 ^ 12 := by decide
  rw [align_to_page, usizeNot, hps]
  have h4095 : (2 ^ 12 - 1 : Nat) = 2 ^ 12 - 1 := rfl
  rw [Nat.testBit_and, Nat.testBit_xor, Nat.testBit_two_pow_sub_one,
    Nat.testBit_two_pow_sub_one, Nat.testBit_mul_pow_two,
    ← Nat.shiftRight_eq_div_pow, Nat.testBit_shiftRight]
  by_cases h12 : i < 12
  · have h64 : i < 64 := by omega
    simp [h12, h64]
  · by_cases h64 : i < 64
    · have hi : 12 + (i - 12) = i := by omega
      have hge : 12 ≤ i := by omega
      simp [h12, h64, hi, hge]
    · have hbit : addr.testBit (12 + (i - 12)) = false := by
        have hi : 12 + (i - 12) = i := by omega
        rw [hi]
        exact Nat.testBit_lt_two_pow
          (Nat.lt_of_lt_of_le h (Nat.pow_le_pow_right (by omega) (by omega)))
      simp [h12, h64, hbit]

/-! ## snapshot.rs: memory regions and snapshot eligibility -/

/-- `src/snapshot.rs` lines 109-116: a memory region parsed from the
kernel memory map.  The `end` field of the source is called `endAddr`
here because `end` is a Lean keyword. -/
structure MemoryRegion where
  start : Nat
  endAddr : Nat
  len : Nat
  perms : List Char
  name : List Char
deriving DecidableEq, Repr

/-- `src/snapshot.rs` lines 123-155, `MemoryRegion::should_snapshot`:
writable required; vDSO and vsyscall excluded; then heap, stack and
libpython mappings included by name, and anonymous mappings included
when additionally private. -/
def MemoryRegion.should_snapshot (r : MemoryRegion) : Bool :=
  if !(r.perms.contains 'w') then false
  else if sContains r.name ("[vdso]".data) || sContains r.name ("[vsyscall]".data) then false
  else if sContains r.name ("[heap]".data) then true
  else if sContains r.name ("[stack]".data) then true
  else if sContains r.name ("libpython".data) then true
  else if r.name.isEmpty && r.perms.contains 'p' then true
  else false

/-- `src/snapshot.rs` lines 158-160, `MemoryRegion::is_stack`. -/
def MemoryRegion.is_stack (r : MemoryRegion) : Bool :=
  sContains r.name ("[stack]".data)

/-- The eligibility predicate exactly as the specification words it
(spec.md section 3, Memory Region): writable AND private AND not a
kernel virtual-DSO/vsyscall page AND (heap, stack, anonymous mapping,
or a libpython mapping).  Stated separately from the source translation
so the two can be compared. -/
def shouldSnapshotSpec (r : MemoryRegion) : Bool :=
  r.perms.contains 'w' && r.perms.contains 'p' &&
  !(sContains r.name ("[vdso]".data)) && !(sContains r.name ("[vsyscall]".data)) &&
  (sContains r.name ("[heap]".data) || sContains r.name ("[stack]".data) ||
    r.name.isEmpty || sContains r.name ("libpython".data))

/-! ## snapshot.rs: golden-page capture -/

/-- The page-splitting loop of `SnapshotManager::capture_region_pages`
(`src/snapshot.rs` lines 351-360): starting at `offset`, emit one
`(page_addr, page_data)` pair per `PAGE_SIZE` step while `offset < len`,
where `page_data` is `buffer[offset .. min (offset + PAGE_SIZE) len]`. -/
def splitPages (start len : Nat) (buffer : List Nat) (offset : Nat) :
    List (Nat × List Nat) :=
  if offset < len then
    let page_end := min (offset + PAGE_SIZE) len
    (start + offset, (buffer.drop offset).take (page_end - offset)) ::
      splitPages start len buffer (offset + PAGE_SIZE)
  else []
termination_by len - offset
decreasing_by simp_wf; simp only [PAGE_SIZE]; omega

/-- `src/snapshot.rs` lines 323-371, `SnapshotManager::capture_region_pages`,
after the cross-address-space read has produced `buffer` (the source
errors out unless exactly `region.len` bytes were read, so `buffer` is
assumed to carry the region bytes).  The `HashMap` of the source is
modelled as the association list of inserted pairs; its keys are
pairwise distinct. -/
def capture_region_pages (region : MemoryRegion) (buffer : List Nat) :
    List (Nat × List Nat) :=
  splitPages region.start region.len buffer 0

/-! ## snapshot.rs: fault handling -/

/-- Per-worker snapshot state, `src/snapshot.rs` lines 219-226.  The
`golden_pages` hash map is modelled as an association list with distinct
keys; the live `uffd` handle is not part of the pure model. -/
structure WorkerSnapshot where
  golden_pages : List (Nat × List Nat)
  regions : List MemoryRegion
deriving DecidableEq, Repr

/-- The userfaultfd resolution action issued by `handle_fault`:
either `uffd.copy(src_data, dst, len, wake)` or
`uffd.zeropage(dst, len, wake)`. -/
inductive FaultAction where
  | copy (src_data : List Nat) (dst : Nat) (len : Nat) (wake : Bool)
  | zeropage (dst : Nat) (len : Nat) (wake : Bool)
deriving DecidableEq, Repr

/-- `src/snapshot.rs` lines 443-484, `SnapshotManager::handle_fault`:
look up the worker; fail if unregistered; page-align the fault address;
copy the golden bytes if the aligned address is a key of
`golden_pages`, otherwise zero-fill one page; wake in both cases. -/
def handle_fault (workers : List (Int × WorkerSnapshot)) (pid : Int)
    (fault_addr : Nat) : Option FaultAction :=
  match List.lookup pid workers with
  | none => none
  | some worker =>
    let page_start := align_to_page fault_addr
    match List.lookup page_start worker.golden_pages with
    | some data => some (.copy data page_start data.length true)
    | none => some (.zeropage page_start PAGE_SIZE true)

/-! ## protocol.rs: status codes, message truncation, TestResult

A Rust `String` is a UTF-8 byte buffer; `msg.len()` is its byte length
and `&msg[..k]` panics unless `k` is a character boundary.  The model
uses `List Char` together with `Char.utf8Size` (the exact byte count of
the UTF-8 encoding of a character, matching `char::len_utf8`); a byte
slice that would panic is `none`. -/

/-- Status byte constants, `src/protocol.rs` lines 13-18. -/
def STATUS_PASS : Nat := 0

def STATUS_FAIL : Nat := 1

def STATUS_SKIP : Nat := 2

def STATUS_CRASH : Nat := 3

def STATUS_ERROR : Nat := 4

def STATUS_HARNESS_ERROR : Nat := 5

/-- The UTF-8 byte length of a character list: Rust `str::len`. -/
def strLen (s : List Char) : Nat := (s.map Char.utf8Size).sum

/-- Rust byte slicing `&msg[..k]`: the character prefix whose encoding
occupies exactly `k` bytes, or `none` when `k` is not a character
boundary (the source panics there). -/
def byteSlice : List Char → Nat → Option (List Char)
  | _, 0 => some []
  | [], _ + 1 => none
  | c :: cs, k + 1 =>
    if Char.utf8Size c ≤ k + 1 then
      (byteSlice cs (k + 1 - Char.utf8Size c)).map (c :: ·)
    else none

/-- `src/protocol.rs` lines 122-129, `truncate_message`: messages longer
than `MAX_LEN = 4096` bytes keep their first 4096 bytes and gain the
suffix `"... [truncated]"`; the byte slice panics (`none`) when byte
4096 is not a character boundary. -/
def truncate_message (msg : List Char) : Option (List Char) :=
  if strLen msg > 4096 then
    (byteSlice msg 4096).map (· ++ ("... [truncated]".data))
  else some msg

/-- `src/protocol.rs` lines 56-63, `TestResult`. -/
structure TestResult where
  test_id : Nat
  status : Nat
  duration_ns : Nat
  message : List Char
deriving DecidableEq, Repr

/-- `src/protocol.rs` lines 66-73, `TestResult::pass`. -/
def TestResult.pass (test_id duration_ns : Nat) : TestResult :=
  { test_id := test_id, status := STATUS_PASS, duration_ns := duration_ns,
    message := [] }

/-- `src/protocol.rs` lines 75-82, `TestResult::fail`; `none` when
`truncate_message` panics on the given message. -/
def TestResult.fail (test_id duration_ns : Nat) (message : List Char) :
    Option TestResult :=
  (truncate_message message).map fun m =>
    { test_id := test_id, status := STATUS_FAIL, duration_ns := duration_ns,
      message := m }

/-! ## protocol.rs: bincode wire encoding of TestPayload

bincode (1.x default options, as used by `bincode::serialize` /
`bincode::deserialize`): fixed-width little-endian integers, `u64`
length prefixes for strings and sequences, `bool` as one byte.
Byte streams are `List Nat` with each element one byte. -/

/-- `src/protocol.rs` lines 36-39, `FixtureInfo`; both fields are Rust
strings, carried on the wire as their UTF-8 bytes. -/
structure FixtureInfo where
  name : List Nat
  scope : List Nat
deriving DecidableEq, Repr

/-- `src/protocol.rs` lines 21-32, `TestPayload`; string fields are
modelled as their UTF-8 bytes, `test_id` is a `u32`, `log_fd` an `i32`. -/
structure TestPayload where
  test_id : Nat
  file_path : List Nat
  test_name : List Nat
  is_async : Bool
  fixtures : List FixtureInfo
  log_fd : Int
  debug_socket_path : List Nat
deriving DecidableEq, Repr

/-- Little-endian `u32` encoding. -/
def u32ToLeBytes (n : Nat) : List Nat :=
  [n % 256, n / 256 % 256, n / 65536 % 256, n / 16777216 % 256]

/-- Little-endian `u64` encoding. -/
def u64ToLeBytes (n : Nat) : List Nat :=
  [n % 256, n / 256 % 256, n / 65536 % 256, n / 16777216 % 256,
   n / 4294967296 % 256, n / 1099511627776 % 256,
   n / 281474976710656 % 256, n / 72057594037927936 % 256]

/-- Read a little-endian `u32` from the stream. -/
def decodeU32 : List Nat → Option (Nat × List Nat)
  | b0 :: b1 :: b2 :: b3 :: rest =>
    some (b0 + 256 * b1 + 65536 * b2 + 16777216 * b3, rest)
  | _ => none

/-- Read a little-endian `u64` from the stream. -/
def decodeU64 : List Nat → Option (Nat × List Nat)
  | b0 :: b1 :: b2 :: b3 :: b4 :: b5 :: b6 :: b7 :: rest =>
    some (b0 + 256 * b1 + 65536 * b2 + 16777216 * b3 + 4294967296 * b4 +
      1099511627776 * b5 + 281474976710656 * b6 + 72057594037927936 * b7, rest)
  | _ => none

/-- Take exactly `k` bytes from the stream. -/
def readBytes (k : Nat) (bs : List Nat) : Option (List Nat × List Nat) :=
  if k ≤ bs.length then some (bs.take k, bs.drop k) else none

/-- bincode `bool`: one byte, `1` or `0`. -/
def encodeBool (b : Bool) : List Nat := [if b then 1 else 0]

/-- bincode `bool` decoding: `1 ↦ true`, `0 ↦ false`, anything else is
an invalid-value error. -/
def decodeBool : List Nat → Option (Bool × List Nat)
  | 1 :: rest => some (true, rest)
  | 0 :: rest => some (false, rest)
  | _ => none

/-- bincode `String`: `u64` byte length then the UTF-8 bytes. -/
def encodeStr (s : List Nat) : List Nat := u64ToLeBytes s.length ++ s

/-- bincode `String` decoding. -/
def decodeStr (bs : List Nat) : Option (List Nat × List Nat) :=
  match decodeU64 bs with
  | some (n, rest) => readBytes n rest
  | none => none

/-- bincode `i32`: the two's-complement value as a little-endian `u32`. -/
def encodeI32 (v : Int) : List Nat := u32ToLeBytes (v % 4294967296).toNat

/-- bincode `i32` decoding. -/
def decodeI32 (bs : List Nat) : Option (Int × List Nat) :=
  match decodeU32 bs with
  | some (n, rest) =>
    some (if n < 2147483648 then (n : Int) else (n : Int) - 4294967296, rest)
  | none => none

/-- bincode encoding of one `FixtureInfo`: its fields in order. -/
def encodeFixture (f : FixtureInfo) : List Nat :=
  encodeStr f.name ++ encodeStr f.scope

/-- bincode decoding of one `FixtureInfo`. -/
def decodeFixture (bs : List Nat) : Option (FixtureInfo × List Nat) :=
  match decodeStr bs with
  | some (n, r1) =>
    match decodeStr r1 with
    | some (s, r2) => some ({ name := n, scope := s }, r2)
    | none => none
  | none => none

/-- bincode `Vec<FixtureInfo>`: `u64` element count then the elements. -/
def encodeFixtures (xs : List FixtureInfo) : List Nat :=
  u64ToLeBytes xs.length ++ (xs.map encodeFixture).flatten

/-- Decode `n` consecutive fixtures. -/
def decodeFixtureList : Nat → List Nat → Option (List FixtureInfo × List Nat)
  | 0, bs => some ([], bs)
  | n + 1, bs =>
    match decodeFixture bs with
    | some (x, r) =>
      match decodeFixtureList n r with
      | some (xs, r2) => some (x :: xs, r2)
      | none => none
    | none => none

/-- bincode `Vec<FixtureInfo>` decoding. -/
def decodeFixtures (bs : List Nat) : Option (List FixtureInfo × List Nat) :=
  match decodeU64 bs with
  | some (n, rest) => decodeFixtureList n rest
  | none => none

/-- `bincode::serialize` of a `TestPayload` (`src/protocol.rs` lines
21-32): the fields in declaration order. -/
def serializePayload (p : TestPayload) : List Nat :=
  u32ToLeBytes p.test_id ++ encodeStr p.file_path ++ encodeStr p.test_name ++
    encodeBool p.is_async ++ encodeFixtures p.fixtures ++
    encodeI32 p.log_fd ++ encodeStr p.debug_socket_path

/-- `bincode::deserialize::<TestPayload>`. -/
def deserializePayload (bs : List Nat) : Option (TestPayload × List Nat) :=
  match decodeU32 bs with
  | some (tid, r1) =>
    match decodeStr r1 with
    | some (fp, r2) =>
      match decodeStr r2 with
      | some (tn, r3) =>
        match decodeBool r3 with
        | some (ia, r4) =>
          match decodeFixtures r4 with
          | some (fx, r5) =>
            match decodeI32 r5 with
            | some (fd, r6) =>
              match decodeStr r6 with
              | some (dp, r7) =>
                some ({ test_id := tid, file_path := fp, test_name := tn,
                        is_async := ia, fixtures := fx, log_fd := fd,
                        debug_socket_path := dp }, r7)
              | none => none
            | none => none
          | none => none
        | none => none
      | none => none
    | none => none
  | none => none

/-- `src/protocol.rs` lines 132-139, `encode_with_length`: serialize,
then prefix the length as a little-endian `u32` (the Rust cast
`payload.len() as u32` truncates modulo `2 ^ 32`). -/
def encode_with_length (p : TestPayload) : List Nat :=
  let payload := serializePayload p
  u32ToLeBytes (payload.length % 4294967296) ++ payload

/-- The receiving side of the session framing (`src/zygote.rs` lines
296-309): read the `u32` length prefix, read that many payload bytes,
then `bincode::deserialize` the payload. -/
def decodeFrame (bs : List Nat) : Option TestPayload :=
  match decodeU32 bs with
  | some (len, rest) =>
    match readBytes len rest with
    | some (body, _) =>
      match deserializePayload body with
      | some (p, _) => some p
      | none => none
    | none => none
  | none => none

/-! ## scheduler.rs: reporter translation, stale workers, run bookkeeping -/

/-- `src/scheduler.rs` lines 17-21, `ActiveWorker`.  `start_time` is an
`Instant`; the model keeps the elapsed age in seconds instead, which is
the only use the scheduler makes of it (`w.start_time.elapsed() > timeout`). -/
structure ActiveWorker where
  test_name : List Char
  slot : Nat
  elapsedSecs : Nat
deriving DecidableEq, Repr

/-- `HashMap::remove` on a table keyed by `test_id`: drop the entry with
that key. -/
def removeKey (table : List (Nat × ActiveWorker)) (id : Nat) :
    List (Nat × ActiveWorker) :=
  table.filter fun p => p.1 != id

/-- The reporter-facing translation of `try_collect_result_for_reporter`
(`src/scheduler.rs` lines 169-193) applied to a parsed `TestResult`:
take and remove the active-worker entry (falling back to
`format!("test_{}", id)` and slot 0), map the status byte to `"pass"` or
`"fail"`, convert the duration to whole milliseconds, and drop empty
messages.  The returned quadruple is what `on_test_finished` receives;
the second component is the updated table. -/
def collectTranslate (table : List (Nat × ActiveWorker)) (result : TestResult) :
    (List Char × List Char × Nat × Option (List Char)) × List (Nat × ActiveWorker) :=
  let looked := List.lookup result.test_id table
  let test_name := match looked with
    | some w => w.test_name
    | none => ("test_".data) ++ (toString result.test_id).data
  let status := if result.status = STATUS_PASS then "pass".data else "fail".data
  let duration_ms := result.duration_ns / 1000000
  let msg := if result.message = [] then none else some result.message
  ((test_name, status, duration_ms, msg), removeKey table result.test_id)

/-- `src/scheduler.rs` lines 303-310, `Scheduler::get_stale_workers`:
the `(test_id, test_name, slot)` triples of every entry strictly older
than the timeout. -/
def get_stale_workers (table : List (Nat × ActiveWorker)) (timeout : Nat) :
    List (Nat × List Char × Nat) :=
  (table.filter fun p => timeout < p.2.elapsedSecs).map
    fun p => (p.1, p.2.test_name, p.2.slot)

/-- Observable actions of the scheduler run loop.  `killWorker` is in
the vocabulary so that its absence from the stale branch is a statement
about the code, not about the model. -/
inductive SchedAction where
  | testFinished (test_name : List Char) (status : List Char)
      (duration_ms : Nat) (msg : Option (List Char))
  | readAndClear (slot : Nat)
  | killWorker (pid : Nat)
deriving DecidableEq, Repr

/-- The body of the stale loop (`src/scheduler.rs` lines 128-134): for
each stale triple in order, emit the synthetic crash completion and the
log-buffer clear, and remove the entry from the table. -/
def processStale : List (Nat × List Char × Nat) → List (Nat × ActiveWorker) →
    List SchedAction × List (Nat × ActiveWorker)
  | [], table => ([], table)
  | (id, name, slot) :: rest, table =>
    let step := processStale rest (removeKey table id)
    (.testFinished name ("fail".data) 0 (some ("CRASHED - no response".data)) ::
      .readAndClear slot :: step.1, step.2)

/-- `src/scheduler.rs` lines 126-135, the no-progress branch of
`Scheduler::run`: scan for workers older than `Duration::from_secs(3)`
and synthesize a crash completion for each. -/
def staleBranch (table : List (Nat × ActiveWorker)) :
    List SchedAction × List (Nat × ActiveWorker) :=
  processStale (get_stale_workers table 3) table

/-- The count bookkeeping of `Scheduler::run` (`src/scheduler.rs` lines
55-150).  `active` is the set of test ids in the active-worker table. -/
structure RunTally where
  passed : Nat
  failed : Nat
  collected : Nat
  active : List Nat
deriving DecidableEq, Repr

/-- One bookkeeping transition of `Scheduler::run`, covering the four
places the counts change: a successful dispatch (insert into the table,
line 231), a failed dispatch (lines 105-109), a collected result frame
(lines 88-98 and 115-124, removing the table entry inside
`try_collect_result_for_reporter`), and a stale synthesis (lines
128-134). -/
inductive SchedEvent where
  | dispatchOk (id : Nat)
  | dispatchErr (id : Nat)
  | frame (id : Nat) (pass : Bool)
  | stale (id : Nat)
deriving DecidableEq, Repr

/-- Apply one bookkeeping transition. -/
def schedStep (s : RunTally) (e : SchedEvent) : RunTally :=
  match e with
  | .dispatchOk id => { s with active := id :: s.active }
  | .dispatchErr _ =>
    { s with failed := s.failed + 1, collected := s.collected + 1 }
  | .frame id pass =>
    { s with active := s.active.erase id,
             passed := if pass then s.passed + 1 else s.passed,
             failed := if pass then s.failed else s.failed + 1,
             collected := s.collected + 1 }
  | .stale id =>
    { s with active := s.active.erase id, failed := s.failed + 1,
             collected := s.collected + 1 }

/-- The run bookkeeping over a whole event trace. -/
def schedRun (s : RunTally) (es : List SchedEvent) : RunTally :=
  es.foldl schedStep s

/-- The initial tally of `Scheduler::run` (lines 62-64). -/
def initTally : RunTally := { passed := 0, failed := 0, collected := 0, active := [] }

/-- `run_finished` is emitted with a literal `0` skipped count
(`src/scheduler.rs` line 142). -/
def runFinishedSkipped : Nat := 0

/-- Number of dispatched tests in a trace: every test the dispatch loop
processed, whether `dispatch_test` succeeded or failed. -/
def dispatchCount (es : List SchedEvent) : Nat :=
  es.countP fun e =>
    match e with
    | .dispatchOk _ => true
    | .dispatchErr _ => true
    | _ => false

/-- Number of `test_finished` emissions in a trace: one per dispatch
error, collected frame, or stale synthesis. -/
def finishedCount (es : List SchedEvent) : Nat :=
  es.countP fun e =>
    match e with
    | .dispatchOk _ => false
    | _ => true

/-- Trace validity: every collected frame and every stale synthesis
refers to a test id currently in the active-worker table (result frames
are produced by dispatched workers, and the stale scan reads the table
itself). -/
def validTrace : List Nat → List SchedEvent → Bool
  | _, [] => true
  | active, .dispatchOk id :: es => validTrace (id :: active) es
  | active, .dispatchErr _ :: es => validTrace active es
  | active, .frame id _ :: es =>
    active.contains id && validTrace (active.erase id) es
  | active, .stale id :: es =>
    active.contains id && validTrace (active.erase id) es

/-! ## zygote.rs / isolation.rs / main.rs: worker setup and the
isolation-bypass flag -/

/-- The jail steps of `setup_filesystem` (`src/isolation.rs` lines
25-116), in source order. -/
inductive JailAction where
  | unshareMountAndNet
  | markMountsPrivate
  | setupLoopback
  | createBaseDir
  | bindMountRoot
  | remountRootReadOnly
  | mountTmpfs
  | createOverlayDirs
  | overlayTmp
  | overlayProjectRoot
deriving DecidableEq, Repr

/-- `src/isolation.rs` lines 25-116, `setup_filesystem`: the fixed
sequence of jail actions.  The function reads no environment variable
and takes no bypass parameter. -/
def setup_filesystem : List JailAction :=
  [.unshareMountAndNet, .markMountsPrivate, .setupLoopback, .createBaseDir,
   .bindMountRoot, .remountRootReadOnly, .mountTmpfs, .createOverlayDirs,
   .overlayTmp, .overlayProjectRoot]

/-- The steps of the worker fork branch, `src/zygote.rs` lines 338-404. -/
inductive WorkerAction where
  | setPdeathsig
  | restoreSigchld
  | isolationSetup (jail : List JailAction)
  | rechdirProjectRoot
  | redirectLogs (fd : Int)
  | setDebugSocket (path : List Nat)
  | postForkInit
  | runTest
  | sendResult
deriving DecidableEq, Repr

/-- `src/zygote.rs` lines 338-404, the child branch of the `FORK`
handler.  `noIsolationEnvSet` models whether `TACH_NO_ISOLATION` is
present in the inherited environment; the branch never reads it, so the
parameter is unused by the body — exactly as in the source, where
`crate::isolation::setup_filesystem` is called unconditionally. -/
def workerChildActions (_noIsolationEnvSet : Bool) (payload : TestPayload) :
    List WorkerAction :=
  [.setPdeathsig, .restoreSigchld, .isolationSetup setup_filesystem,
   .rechdirProjectRoot] ++
  (if payload.log_fd ≥ 0 then [.redirectLogs payload.log_fd] else []) ++
  (if payload.debug_socket_path ≠ [] then
    [.setDebugSocket payload.debug_socket_path] else []) ++
  [.postForkInit, .runTest, .sendResult]

/-- `src/main.rs` lines 101-104: the CLI flag only sets the environment
variable; `src/main.rs` lines 292-296: the supervisor merely logs when
the variable is `"1"`.  The session environment therefore has the
variable set iff the flag was passed or it was inherited. -/
def sessionNoIsolationEnv (cliFlag inheritedVar : Bool) : Bool :=
  cliFlag || inheritedVar

/-! ## Claim C1: fault resolution at the page-aligned address -/

/-- C1: for every registered worker and every page-fault address, the
fault handler resolves at the page-aligned address `a & !(4096 - 1)`,
which equals `4096 * (a / 4096)`: when that address is a key of the
worker's `golden_pages` it copies exactly the stored golden bytes there,
otherwise it zero-fills one 4096-byte page there, and in both cases it
wakes the faulting thread. -/
theorem C1_handle_fault_resolution
    (workers : List (Int × WorkerSnapshot)) (pid : Int) (w : WorkerSnapshot)
    (fault_addr : Nat) (hreg : List.lookup pid workers = some w)
    (haddr : fault_addr < 2 ^ 64) :
    (∀ data,
      List.lookup (PAGE_SIZE * (fault_addr / PAGE_SIZE)) w.golden_pages = some data →
        handle_fault workers pid fault_addr =
          some (.copy data (PAGE_SIZE * (fault_addr / PAGE_SIZE)) data.length true)) ∧
    (List.lookup (PAGE_SIZE * (fault_addr / PAGE_SIZE)) w.golden_pages = none →
      handle_fault workers pid fault_addr =
        some (.zeropage (PAGE_SIZE * (fault_addr / PAGE_SIZE)) PAGE_SIZE true)) := by
  have halign := align_to_page_eq fault_addr haddr
  constructor
  · intro data hd
    simp [handle_fault, hreg, halign, hd]
  · intro hd
    simp [handle_fault, hreg, halign, hd]

/-- Witness for C1 at a concrete registered worker: a fault at `4097`
is resolved at page `4096`, whose golden bytes are `[1, 2, 3]`. -/
theorem C1_handle_fault_resolution_witness :
    handle_fault [((7 : Int), ⟨[(4096, [1, 2, 3])], []⟩)] 7 4097 =
      some (.copy [1, 2, 3] 4096 3 true) := by
  have h := (C1_handle_fault_resolution [((7 : Int), ⟨[(4096, [1, 2, 3])], []⟩)]
    7 ⟨[(4096, [1, 2, 3])], []⟩ 4097 (by decide) (by decide)).1 [1, 2, 3] (by decide)
  simpa using h

/-! ## Claim C2: the snapshot-eligibility predicate -/

/-- C2 counterexample: a shared (non-private) writable heap region.
The code includes it (`should_snapshot = true`) but the claimed
predicate requires the region to be private, so the claimed iff fails. -/
theorem C2_should_snapshot_counterexample :
    MemoryRegion.should_snapshot
      ⟨0, 4096, 4096, ("rw-s".data), ("[heap]".data)⟩ = true ∧
    shouldSnapshotSpec
      ⟨0, 4096, 4096, ("rw-s".data), ("[heap]".data)⟩ = false := by
  decide

/-- C2 amended: `should_snapshot` returns true iff the region is
writable AND not a vDSO/vsyscall page AND (heap-named, stack-named,
libpython-named, or anonymous-and-private).  Privateness is only
required for anonymous regions, not for the named ones. -/
theorem C2_should_snapshot_characterization (r : MemoryRegion) :
    r.should_snapshot = true ↔
      (r.perms.contains 'w' = true ∧
       sContains r.name ("[vdso]".data) = false ∧
       sContains r.name ("[vsyscall]".data) = false ∧
       (sContains r.name ("[heap]".data) = true ∨
        sContains r.name ("[stack]".data) = true ∨
        sContains r.name ("libpython".data) = true ∨
        (r.name.isEmpty = true ∧ r.perms.contains 'p' = true))) := by
  simp only [MemoryRegion.should_snapshot]
  cases hw : r.perms.contains 'w' <;>
    cases h1 : sContains r.name ("[vdso]".data) <;>
    cases h2 : sContains r.name ("[vsyscall]".data) <;>
    cases h3 : sContains r.name ("[heap]".data) <;>
    cases h4 : sContains r.name ("[stack]".data) <;>
    cases h5 : sContains r.name ("libpython".data) <;>
    cases h6 : r.name.isEmpty <;>
    cases h7 : r.perms.contains 'p' <;>
    simp_all

/-! ## Claim C3: golden-page capture of one region -/

theorem splitPages_keys (start : Nat) (buffer : List Nat) :
    ∀ fuel offset len, len - offset ≤ fuel →
      (splitPages start len buffer offset).map Prod.fst =
        (List.range ((len - offset + 4095) / 4096)).map
          (fun i => start + offset + 4096 * i) := by
  intro fuel
  induction fuel with
  | zero =>
    intro offset len h
    rw [splitPages.eq_def]
    have hnlt : ¬ offset < len := by omega
    have hz : (len - offset + 4095) / 4096 = 0 := by omega
    simp [hnlt, hz]
  | succ n ih =>
    intro offset len h
    rw [splitPages.eq_def]
    by_cases hlt : offset < len
    · simp only [hlt, if_true, List.map_cons]
      rw [ih (offset + PAGE_SIZE) len (by simp only [PAGE_SIZE]; omega)]
      have hceil : (len - offset + 4095) / 4096 =
          ((len - (offset + PAGE_SIZE) + 4095) / 4096) + 1 := by
        simp only [PAGE_SIZE]; omega
      rw [hceil, List.range_succ_eq_map, List.map_cons, List.map_map]
      have hhead : start + offset + 4096 * 0 = start + offset := by omega
      rw [hhead]
      congr 1
      apply List.map_congr_left
      intro i _
      simp only [Function.comp_apply, PAGE_SIZE, Nat.succ_eq_add_one]
      omega
    · have hz : (len - offset + 4095) / 4096 = 0 := by omega
      simp [hlt, hz]

theorem splitPages_blob_sizes (start : Nat) (buffer : List Nat) (len : Nat)
    (hbuf : buffer.length = len) (hlen : len % 4096 = 0) :
    ∀ fuel offset, len - offset ≤ fuel → offset % 4096 = 0 →
      ∀ p ∈ splitPages start len buffer offset, p.2.length = 4096 := by
  intro fuel
  induction fuel with
  | zero =>
    intro offset h _ p hp
    rw [splitPages.eq_def] at hp
    have hnlt : ¬ offset < len := by omega
    simp [hnlt] at hp
  | succ n ih =>
    intro offset h hoff p hp
    rw [splitPages.eq_def] at hp
    by_cases hlt : offset < len
    · simp only [hlt, if_true, List.mem_cons] at hp
      rcases hp with hp | hp
      · subst hp
        simp only [List.length_take, List.length_drop, hbuf, PAGE_SIZE]
        omega
      · exact ih (offset + PAGE_SIZE)
          (by simp only [PAGE_SIZE]; omega)
          (by simp only [PAGE_SIZE]; omega) p hp
    · simp [hlt] at hp

/-- C3: capturing a region of length `L` (after a full `L`-byte
cross-address-space read into `buffer`) yields exactly `⌈L / 4096⌉`
entries, keyed `start, start + 4096, …`, all strictly below the region
end, and when `L` is a multiple of 4096 every stored blob is exactly
4096 bytes long. -/
theorem C3_capture_region_pages_spec (region : MemoryRegion)
    (buffer : List Nat) (hbuf : buffer.length = region.len)
    (hend : region.endAddr = region.start + region.len) :
    (capture_region_pages region buffer).length = (region.len + 4095) / 4096 ∧
    (capture_region_pages region buffer).map Prod.fst =
      (List.range ((region.len + 4095) / 4096)).map
        (fun i => region.start + 4096 * i) ∧
    (∀ k ∈ (capture_region_pages region buffer).map Prod.fst,
      region.start ≤ k ∧ k < region.endAddr) ∧
    (region.len % 4096 = 0 →
      ∀ p ∈ capture_region_pages region buffer, p.2.length = 4096) := by
  have hkeys := splitPages_keys region.start buffer region.len 0 region.len
    (by omega)
  simp only [Nat.sub_zero, Nat.add_zero] at hkeys
  refine ⟨?_, ?_, ?_, ?_⟩
  · have := congrArg List.length hkeys
    simpa [capture_region_pages] using this
  · exact hkeys
  · intro k hk
    rw [capture_region_pages, hkeys] at hk
    simp only [List.mem_map, List.mem_range] at hk
    obtain ⟨i, hi, rfl⟩ := hk
    constructor
    · omega
    · rw [hend]
      omega
  · intro hmod p hp
    exact splitPages_blob_sizes region.start buffer region.len hbuf hmod
      region.len 0 (by omega) (by omega) p hp

/-- Witness for C3 at a concrete two-page region of length 8192. -/
theorem C3_capture_region_pages_spec_witness :
    (List.replicate 8192 (0 : Nat)).length =
        (MemoryRegion.mk 4096 12288 8192 [] []).len ∧
      (MemoryRegion.mk 4096 12288 8192 [] []).endAddr =
        (MemoryRegion.mk 4096 12288 8192 [] []).start +
          (MemoryRegion.mk 4096 12288 8192 [] []).len ∧
      (capture_region_pages (MemoryRegion.mk 4096 12288 8192 [] [])
          (List.replicate 8192 (0 : Nat))).length = (8192 + 4095) / 4096 :=
  ⟨by simp only [List.length_replicate], rfl,
    (C3_capture_region_pages_spec (MemoryRegion.mk 4096 12288 8192 [] [])
      (List.replicate 8192 (0 : Nat)) (by simp only [List.length_replicate]) rfl).1⟩

/-! ## Claim C4: the isolation-bypass flag is ignored by workers -/

/-- C4: the worker fork branch performs the full isolation-jail setup
(namespace unshare, read-only remount, overlays) no matter whether the
`TACH_NO_ISOLATION` environment variable is set: its action sequence
does not depend on the flag at all, and with the flag set it still
contains the complete `setup_filesystem` jail.  This contradicts the
claim (and the comments in `src/main.rs` lines 101 and 292-293, which
state the variable is set "so workers can check it"): no worker-side
check exists in the source. -/
theorem C4_worker_ignores_no_isolation (payload : TestPayload) :
    (∀ b₁ b₂ : Bool,
      workerChildActions b₁ payload = workerChildActions b₂ payload) ∧
    WorkerAction.isolationSetup setup_filesystem ∈
      workerChildActions (sessionNoIsolationEnv true false) payload ∧
    JailAction.unshareMountAndNet ∈ setup_filesystem ∧
    JailAction.remountRootReadOnly ∈ setup_filesystem ∧
    JailAction.overlayTmp ∈ setup_filesystem ∧
    JailAction.overlayProjectRoot ∈ setup_filesystem := by
  refine ⟨fun b₁ b₂ => rfl, ?_, by decide, by decide, by decide, by decide⟩
  simp [workerChildActions]

/-! ## Claims C5 and C10: message truncation -/

theorem byteSlice_strLen :
    ∀ (s : List Char) (k : Nat) (p : List Char),
      byteSlice s k = some p → strLen p = k := by
  intro s
  induction s with
  | nil =>
    intro k p h
    cases k with
    | zero => simp [byteSlice] at h; subst h; rfl
    | succ m => simp [byteSlice] at h
  | cons c cs ih =>
    intro k p h
    cases k with
    | zero => simp [byteSlice] at h; subst h; rfl
    | succ m =>
      rw [byteSlice] at h
      by_cases hsz : Char.utf8Size c ≤ m + 1
      · rw [if_pos hsz, Option.map_eq_some'] at h
        obtain ⟨q, hq, rfl⟩ := h
        have := ih (m + 1 - Char.utf8Size c) q hq
        simp only [strLen, List.map_cons, List.sum_cons] at *
        omega
      · rw [if_neg hsz] at h
        exact absurd h (by simp)

theorem strLen_append (a b : List Char) :
    strLen (a ++ b) = strLen a + strLen b := by
  simp [strLen]

theorem strLen_replicate (n : Nat) (c : Char) :
    strLen (List.replicate n c) = n * Char.utf8Size c := by
  induction n with
  | zero => simp [strLen]
  | succ m ih =>
    simp only [List.replicate_succ, strLen, List.map_cons, List.sum_cons] at *
    rw [Nat.succ_mul]
    omega

theorem byteSlice_replicate_append (c : Char) (hc : Char.utf8Size c = 1) :
    ∀ (n : Nat) (s : List Char) (k : Nat),
      byteSlice (List.replicate n c ++ s) (n + k) =
        (byteSlice s k).map (List.replicate n c ++ ·) := by
  intro n
  induction n with
  | zero =>
    intro s k
    simp only [List.replicate, List.nil_append, Nat.zero_add]
    cases h : byteSlice s k <;> simp
  | succ m ih =>
    intro s k
    have harr : List.replicate (m + 1) c ++ s = c :: (List.replicate m c ++ s) := by
      simp [List.replicate_succ]
    have hk : m + 1 + k = (m + k) + 1 := by omega
    rw [harr, hk, byteSlice, hc]
    have hle : 1 ≤ m + k + 1 := by omega
    rw [if_pos hle]
    have hsub : m + k + 1 - 1 = m + k := by omega
    rw [hsub, ih s k]
    cases h : byteSlice s k <;> simp [List.replicate_succ]

/-- C5 as amended: whenever `truncate_message` returns (does not
panic), the produced message is at most `4096 + 15 = 4111` bytes long
(4096 retained bytes plus the 15-byte elision marker), and an input
longer than 4096 bytes yields an output carrying the elision-marker
suffix `"... [truncated]"`. -/
theorem C5_truncate_message_bound (msg out : List Char)
    (h : truncate_message msg = some out) :
    strLen out ≤ 4111 ∧
      (4096 < strLen msg → List.IsSuffix ("... [truncated]".data) out) := by
  rw [truncate_message] at h
  by_cases hlen : strLen msg > 4096
  · rw [if_pos hlen, Option.map_eq_some'] at h
    obtain ⟨p, hp, rfl⟩ := h
    have hplen := byteSlice_strLen msg 4096 p hp
    have hmarker : strLen ("... [truncated]".data) = 15 := by decide
    constructor
    · rw [strLen_append, hplen, hmarker]
    · intro _
      exact List.suffix_append p ("... [truncated]".data)
  · rw [if_neg hlen] at h
    injection h with h
    subst h
    exact ⟨by omega, fun hgt => absurd hgt hlen⟩

/-- Witness for C5 at a short concrete message, which `truncate_message`
returns unchanged. -/
theorem C5_truncate_message_bound_witness :
    truncate_message ("hi".data) = some ("hi".data) ∧
      strLen ("hi".data) ≤ 4111 :=
  ⟨by decide, (C5_truncate_message_bound ("hi".data) ("hi".data) (by decide)).1⟩

/-- C5 counterexample: on an input of 4097 one-byte characters the
truncated output is 4111 bytes long, which exceeds the claimed
4096-byte bound. -/
theorem C5_truncate_message_counterexample :
    truncate_message (List.replicate 4097 (Char.ofNat 97)) =
      some (List.replicate 4096 (Char.ofNat 97) ++ ("... [truncated]".data)) ∧
    strLen (List.replicate 4096 (Char.ofNat 97) ++ ("... [truncated]".data)) =
      4111 := by
  have hc : Char.utf8Size (Char.ofNat 97) = 1 := by decide
  have hlen : strLen (List.replicate 4097 (Char.ofNat 97)) = 4097 := by
    rw [strLen_replicate, hc]
  have hsplit : List.replicate 4097 (Char.ofNat 97) =
      List.replicate 4096 (Char.ofNat 97) ++ List.replicate 1 (Char.ofNat 97) := by
    rw [← List.replicate_add]
  have hslice : byteSlice (List.replicate 4097 (Char.ofNat 97)) 4096 =
      some (List.replicate 4096 (Char.ofNat 97)) := by
    rw [hsplit]
    have h := byteSlice_replicate_append (Char.ofNat 97) hc 4096
      (List.replicate 1 (Char.ofNat 97)) 0
    simp only [Nat.add_zero] at h
    rw [h]
    have h0 : byteSlice (List.replicate 1 (Char.ofNat 97)) 0 = some [] := rfl
    rw [h0, Option.map_some', List.append_nil]
  constructor
  · rw [truncate_message, if_pos (by omega), hslice]
    rfl
  · rw [strLen_append, strLen_replicate, hc]
    decide

/-- C10: constructing a failing `TestResult` panics on a message whose
byte 4096 falls inside a multi-byte character: 4095 one-byte characters
followed by U+00E9 (two UTF-8 bytes) give a 4097-byte message whose
byte-index-4096 slice is not at a character boundary, so
`truncate_message` — and with it `TestResult::fail` — aborts (`none`). -/
theorem C10_truncate_message_panics :
    strLen (List.replicate 4095 (Char.ofNat 97) ++ [Char.ofNat 233]) = 4097 ∧
    truncate_message (List.replicate 4095 (Char.ofNat 97) ++ [Char.ofNat 233]) =
      none ∧
    TestResult.fail 0 0
      (List.replicate 4095 (Char.ofNat 97) ++ [Char.ofNat 233]) = none := by
  have hc : Char.utf8Size (Char.ofNat 97) = 1 := by decide
  have hlen : strLen (List.replicate 4095 (Char.ofNat 97) ++ [Char.ofNat 233]) =
      4097 := by
    rw [strLen_append, strLen_replicate, hc]
    decide
  have hslice : byteSlice
      (List.replicate 4095 (Char.ofNat 97) ++ [Char.ofNat 233]) 4096 = none := by
    have h := byteSlice_replicate_append (Char.ofNat 97) hc 4095
      [Char.ofNat 233] 1
    rw [show (4095 : Nat) + 1 = 4096 from rfl] at h
    rw [h]
    decide
  have htrunc : truncate_message
      (List.replicate 4095 (Char.ofNat 97) ++ [Char.ofNat 233]) = none := by
    rw [truncate_message, if_pos (by omega), hslice]
    rfl
  exact ⟨hlen, htrunc, by rw [TestResult.fail, htrunc]; rfl⟩

/-! ## Claim C6: the reporter translation of a collected result -/

/-- C6 counterexample: a skip-status result is reported as `"fail"`,
not `"skip"` — `try_collect_result_for_reporter` maps every status byte
other than `STATUS_PASS` to the string `"fail"`. -/
theorem C6_collect_translation_counterexample :
    (collectTranslate [] ⟨5, STATUS_SKIP, 2000000, []⟩).1.2.1 = ("fail".data) ∧
    ("fail".data) ≠ ("skip".data) := by
  decide

/-- C6 as amended: the status string passed to `test_finished` is drawn
from the two-word vocabulary `pass`/`fail`; it is `"pass"` exactly for a
pass-status result and `"fail"` for every other status (skip, fail,
crash, error, harness error alike); the reported duration is
`duration_ns / 1_000_000` milliseconds, and the message is forwarded
unless empty. -/
theorem C6_collect_translation (table : List (Nat × ActiveWorker))
    (result : TestResult) :
    ((collectTranslate table result).1.2.1 = ("pass".data) ∨
      (collectTranslate table result).1.2.1 = ("fail".data)) ∧
    ((collectTranslate table result).1.2.1 = ("pass".data) ↔
      result.status = STATUS_PASS) ∧
    (collectTranslate table result).1.2.2.1 = result.duration_ns / 1000000 ∧
    ((collectTranslate table result).1.2.2.2 = none ↔ result.message = []) := by
  by_cases hs : result.status = STATUS_PASS
  · by_cases hm : result.message = [] <;>
      simp [collectTranslate, hs, hm]
  · by_cases hm : result.message = [] <;>
      simp [collectTranslate, hs, hm]

/-! ## Claim C7: the run counts balance -/

theorem schedRun_bookkeeping :
    ∀ (es : List SchedEvent) (s : RunTally), validTrace s.active es = true →
      (schedRun s es).passed + (schedRun s es).failed =
        s.passed + s.failed + finishedCount es ∧
      (schedRun s es).collected = s.collected + finishedCount es ∧
      (schedRun s es).active.length + finishedCount es =
        s.active.length + dispatchCount es := by
  intro es
  induction es with
  | nil => intro s _; simp [schedRun, finishedCount, dispatchCount]
  | cons e es ih =>
    intro s hv
    cases e with
    | dispatchOk id =>
      simp only [validTrace] at hv
      have h := ih { s with active := id :: s.active } hv
      simp only [schedRun, List.foldl_cons, schedStep] at h ⊢
      simp [finishedCount, dispatchCount, List.countP_cons] at h ⊢
      omega
    | dispatchErr id =>
      simp only [validTrace] at hv
      have h := ih
        { s with failed := s.failed + 1, collected := s.collected + 1 } hv
      simp only [schedRun, List.foldl_cons, schedStep] at h ⊢
      simp [finishedCount, dispatchCount, List.countP_cons] at h ⊢
      omega
    | frame id pass =>
      simp only [validTrace, Bool.and_eq_true] at hv
      obtain ⟨hmem, hv⟩ := hv
      have hmem : id ∈ s.active := by simpa [List.contains] using hmem
      have h := ih
        { s with
            active := s.active.erase id
            passed := if pass then s.passed + 1 else s.passed
            failed := if pass then s.failed else s.failed + 1
            collected := s.collected + 1 } hv
      have hlen : (s.active.erase id).length = s.active.length - 1 :=
        List.length_erase_of_mem hmem
      have hpos : 1 ≤ s.active.length := List.length_pos.mpr
        (List.ne_nil_of_mem hmem)
      simp only [schedRun, List.foldl_cons, schedStep] at h ⊢
      simp [finishedCount, dispatchCount, List.countP_cons] at h ⊢
      cases pass <;> simp_all <;> omega
    | stale id =>
      simp only [validTrace, Bool.and_eq_true] at hv
      obtain ⟨hmem, hv⟩ := hv
      have hmem : id ∈ s.active := by simpa [List.contains] using hmem
      have h := ih
        { s with
            active := s.active.erase id
            failed := s.failed + 1
            collected := s.collected + 1 } hv
      have hlen : (s.active.erase id).length = s.active.length - 1 :=
        List.length_erase_of_mem hmem
      have hpos : 1 ≤ s.active.length := List.length_pos.mpr
        (List.ne_nil_of_mem hmem)
      simp only [schedRun, List.foldl_cons, schedStep] at h ⊢
      simp [finishedCount, dispatchCount, List.countP_cons] at h ⊢
      omega

/-- C7: over any valid run trace in which every dispatched test is
eventually resolved (the active-worker table is empty at the end), the
final counts passed to `run_finished` satisfy
`passed + failed + skipped = number of tests dispatched` (the skipped
count is the literal `0` of the source), and exactly one
`test_finished` emission is counted per dispatched test. -/
theorem C7_run_counts_balance (es : List SchedEvent)
    (hvalid : validTrace initTally.active es = true)
    (hdone : (schedRun initTally es).active = []) :
    (schedRun initTally es).passed + (schedRun initTally es).failed +
        runFinishedSkipped = dispatchCount es ∧
      finishedCount es = dispatchCount es := by
  have h := schedRun_bookkeeping es initTally hvalid
  rw [hdone] at h
  simp only [initTally, List.length_nil, runFinishedSkipped] at h ⊢
  omega

/-- Witness for C7 on a concrete five-event trace: two frames collected,
one dispatch error, one stale synthesis. -/
theorem C7_run_counts_balance_witness :
    validTrace initTally.active
        [SchedEvent.dispatchOk 0, SchedEvent.frame 0 true,
         SchedEvent.dispatchErr 1, SchedEvent.dispatchOk 2,
         SchedEvent.stale 2] = true ∧
      (schedRun initTally
        [SchedEvent.dispatchOk 0, SchedEvent.frame 0 true,
         SchedEvent.dispatchErr 1, SchedEvent.dispatchOk 2,
         SchedEvent.stale 2]).active = [] ∧
      (schedRun initTally
        [SchedEvent.dispatchOk 0, SchedEvent.frame 0 true,
         SchedEvent.dispatchErr 1, SchedEvent.dispatchOk 2,
         SchedEvent.stale 2]).passed +
        (schedRun initTally
          [SchedEvent.dispatchOk 0, SchedEvent.frame 0 true,
           SchedEvent.dispatchErr 1, SchedEvent.dispatchOk 2,
           SchedEvent.stale 2]).failed + runFinishedSkipped =
        dispatchCount
          [SchedEvent.dispatchOk 0, SchedEvent.frame 0 true,
           SchedEvent.dispatchErr 1, SchedEvent.dispatchOk 2,
           SchedEvent.stale 2] :=
  ⟨by decide, by decide,
    (C7_run_counts_balance
      [SchedEvent.dispatchOk 0, SchedEvent.frame 0 true,
       SchedEvent.dispatchErr 1, SchedEvent.dispatchOk 2,
       SchedEvent.stale 2] (by decide) (by decide)).1⟩

/-! ## Claim C8: stale-worker synthesis -/

theorem mem_removeKey (table : List (Nat × ActiveWorker)) (id id' : Nat)
    (w' : ActiveWorker) :
    (id', w') ∈ removeKey table id ↔ ((id', w') ∈ table ∧ id' ≠ id) := by
  simp [removeKey, List.mem_filter]

theorem processStale_table_mem (sl : List (Nat × List Char × Nat)) :
    ∀ (table : List (Nat × ActiveWorker)) (id' : Nat) (w' : ActiveWorker),
      (id', w') ∈ (processStale sl table).2 ↔
        ((id', w') ∈ table ∧ id' ∉ sl.map (·.1)) := by
  induction sl with
  | nil => intro table id' w'; simp [processStale]
  | cons t rest ih =>
    intro table id' w'
    obtain ⟨id, name, slot⟩ := t
    rw [processStale]
    simp only [List.map_cons, List.mem_cons]
    rw [ih (removeKey table id) id' w', mem_removeKey]
    constructor
    · rintro ⟨⟨hmem, hne⟩, hnin⟩
      exact ⟨hmem, by simp; exact ⟨hne, by simpa using hnin⟩⟩
    · rintro ⟨hmem, hall⟩
      simp only [not_or] at hall
      exact ⟨⟨hmem, hall.1⟩, by simpa using hall.2⟩

theorem processStale_action_mem (sl : List (Nat × List Char × Nat)) :
    ∀ (table : List (Nat × ActiveWorker)) (t : Nat × List Char × Nat),
      t ∈ sl →
        SchedAction.testFinished t.2.1 ("fail".data) 0
            (some ("CRASHED - no response".data)) ∈ (processStale sl table).1 ∧
          SchedAction.readAndClear t.2.2 ∈ (processStale sl table).1 := by
  induction sl with
  | nil => intro table t ht; simp at ht
  | cons u rest ih =>
    intro table t ht
    obtain ⟨id, name, slot⟩ := u
    rw [processStale]
    rcases List.mem_cons.mp ht with rfl | ht
    · simp
    · have h := ih (removeKey table id) t ht
      exact ⟨by simp [h.1], by simp [h.2]⟩

theorem processStale_no_kill (sl : List (Nat × List Char × Nat)) :
    ∀ (table : List (Nat × ActiveWorker)) (pid : Nat),
      SchedAction.killWorker pid ∉ (processStale sl table).1 := by
  induction sl with
  | nil => intro table pid; simp [processStale]
  | cons u rest ih =>
    intro table pid
    obtain ⟨id, name, slot⟩ := u
    rw [processStale]
    simp only [List.mem_cons, not_or]
    exact ⟨by simp, by simp, ih (removeKey table id) pid⟩

theorem nodup_keys_eq (id : Nat) (w w' : ActiveWorker) :
    ∀ table : List (Nat × ActiveWorker), (table.map Prod.fst).Nodup →
      (id, w) ∈ table → (id, w') ∈ table → w = w' := by
  intro table
  induction table with
  | nil => intro _ h1 _; cases h1
  | cons p rest ih =>
    intro hnodup h1 h2
    obtain ⟨pid, pw⟩ := p
    simp only [List.map_cons, List.nodup_cons] at hnodup
    rcases List.mem_cons.mp h1 with he1 | h1m
    · rcases List.mem_cons.mp h2 with he2 | h2m
      · injection he1 with h1a h1b
        injection he2 with h2a h2b
        exact h1b.trans h2b.symm
      · exfalso
        injection he1 with h1a h1b
        subst h1a
        exact hnodup.1 (by simpa using List.mem_map_of_mem Prod.fst h2m)
    · rcases List.mem_cons.mp h2 with he2 | h2m
      · exfalso
        injection he2 with h2a h2b
        subst h2a
        exact hnodup.1 (by simpa using List.mem_map_of_mem Prod.fst h1m)
      · exact ih hnodup.2 h1m h2m

theorem mem_get_stale_workers (table : List (Nat × ActiveWorker)) (timeout : Nat)
    (id : Nat) (w : ActiveWorker) (hmem : (id, w) ∈ table)
    (hold : timeout < w.elapsedSecs) :
    (id, w.test_name, w.slot) ∈ get_stale_workers table timeout := by
  simp only [get_stale_workers, List.mem_map]
  refine ⟨(id, w), ?_, rfl⟩
  simp [List.mem_filter, hmem, hold]

/-- C8: in the no-progress branch, every active-worker entry strictly
older than the 3-second stale threshold gets a synthetic crash
completion with status `"fail"`, duration 0 and message exactly
`"CRASHED - no response"`, its log slot is cleared, and its entry is
removed from the table; entries at or below the threshold survive (on a
table with distinct keys); and the branch kills no worker process. -/
theorem C8_stale_branch (table : List (Nat × ActiveWorker)) :
    (∀ id w, (id, w) ∈ table → 3 < w.elapsedSecs →
      SchedAction.testFinished w.test_name ("fail".data) 0
          (some ("CRASHED - no response".data)) ∈ (staleBranch table).1 ∧
        SchedAction.readAndClear w.slot ∈ (staleBranch table).1 ∧
        (∀ w', (id, w') ∉ (staleBranch table).2)) ∧
    ((table.map Prod.fst).Nodup →
      ∀ id w, (id, w) ∈ table → w.elapsedSecs ≤ 3 →
        (id, w) ∈ (staleBranch table).2) ∧
    (∀ pid, SchedAction.killWorker pid ∉ (staleBranch table).1) := by
  refine ⟨?_, ?_, fun pid => processStale_no_kill _ table pid⟩
  · intro id w hmem hold
    have hst := mem_get_stale_workers table 3 id w hmem hold
    have hact := processStale_action_mem _ table (id, w.test_name, w.slot) hst
    refine ⟨hact.1, hact.2, fun w' hmem' => ?_⟩
    rw [staleBranch, processStale_table_mem] at hmem'
    apply hmem'.2
    simpa using ⟨w.test_name, w.slot, hst⟩
  · intro hnodup id w hmem hyoung
    rw [staleBranch, processStale_table_mem]
    refine ⟨hmem, fun hin => ?_⟩
    simp only [get_stale_workers, List.map_map, List.mem_map,
      Function.comp_apply, List.mem_filter, decide_eq_true_eq] at hin
    obtain ⟨⟨id₂, w₂⟩, ⟨hmem₂, hold₂⟩, hid⟩ := hin
    simp only at hid
    subst hid
    have hww : w₂ = w := nodup_keys_eq id₂ w₂ w table hnodup hmem₂ hmem
    rw [hww] at hold₂
    dsimp only at hold₂
    omega

/-- Witness for C8 on a concrete two-entry table: worker 0 is 5 seconds
old (stale), worker 1 is 1 second old (fresh). -/
theorem C8_stale_branch_witness :
    ((0, ActiveWorker.mk ("t0".data) 0 5) ∈
        [(0, ActiveWorker.mk ("t0".data) 0 5),
         (1, ActiveWorker.mk ("t1".data) 1 1)] ∧
      3 < (ActiveWorker.mk ("t0".data) 0 5).elapsedSecs) ∧
    SchedAction.testFinished ("t0".data) ("fail".data) 0
        (some ("CRASHED - no response".data)) ∈
      (staleBranch [(0, ActiveWorker.mk ("t0".data) 0 5),
        (1, ActiveWorker.mk ("t1".data) 1 1)]).1 :=
  ⟨⟨by decide, by decide⟩,
    ((C8_stale_branch [(0, ActiveWorker.mk ("t0".data) 0 5),
        (1, ActiveWorker.mk ("t1".data) 1 1)]).1 0
      (ActiveWorker.mk ("t0".data) 0 5) (by decide) (by decide)).1⟩

/-! ## Claim C9: TestPayload wire round trip -/

theorem decodeU32_encode (n : Nat) (h : n < 4294967296) (rest : List Nat) :
    decodeU32 (u32ToLeBytes n ++ rest) = some (n, rest) := by
  simp only [u32ToLeBytes, List.cons_append, List.nil_append, decodeU32]
  congr 1
  congr 1
  omega

theorem decodeU64_encode (n : Nat) (h : n < 18446744073709551616)
    (rest : List Nat) :
    decodeU64 (u64ToLeBytes n ++ rest) = some (n, rest) := by
  simp only [u64ToLeBytes, List.cons_append, List.nil_append, decodeU64]
  congr 1
  congr 1
  omega

theorem readBytes_append (s rest : List Nat) :
    readBytes s.length (s ++ rest) = some (s, rest) := by
  rw [readBytes, if_pos (by simp), List.take_left, List.drop_left]

theorem decodeStr_encode (s : List Nat) (h : s.length < 18446744073709551616)
    (rest : List Nat) :
    decodeStr (encodeStr s ++ rest) = some (s, rest) := by
  simp only [encodeStr, List.append_assoc, decodeStr,
    decodeU64_encode s.length h, readBytes_append]

theorem decodeBool_encode (b : Bool) (rest : List Nat) :
    decodeBool (encodeBool b ++ rest) = some (b, rest) := by
  cases b <;> rfl

theorem decodeI32_encode (v : Int) (h1 : -2147483648 ≤ v)
    (h2 : v < 2147483648) (rest : List Nat) :
    decodeI32 (encodeI32 v ++ rest) = some (v, rest) := by
  have hlt : (v % 4294967296).toNat < 4294967296 := by omega
  simp only [encodeI32, decodeI32, decodeU32_encode _ hlt]
  have hval : (if ((v % 4294967296).toNat : Nat) < 2147483648 then
        (((v % 4294967296).toNat : Nat) : Int)
      else (((v % 4294967296).toNat : Nat) : Int) - 4294967296) = v := by
    split <;> omega
  rw [hval]

theorem decodeFixture_encode (f : FixtureInfo)
    (hn : f.name.length < 18446744073709551616)
    (hs : f.scope.length < 18446744073709551616) (rest : List Nat) :
    decodeFixture (encodeFixture f ++ rest) = some (f, rest) := by
  simp only [encodeFixture, List.append_assoc, decodeFixture,
    decodeStr_encode f.name hn, decodeStr_encode f.scope hs]

theorem decodeFixtureList_encode :
    ∀ (xs : List FixtureInfo),
      (∀ f ∈ xs, f.name.length < 18446744073709551616 ∧
        f.scope.length < 18446744073709551616) →
      ∀ rest : List Nat,
        decodeFixtureList xs.length ((xs.map encodeFixture).flatten ++ rest) =
          some (xs, rest) := by
  intro xs
  induction xs with
  | nil => intro _ rest; simp [decodeFixtureList]
  | cons f fs ih =>
    intro hb rest
    have hf := hb f (List.mem_cons_self f fs)
    have hrest := ih (fun g hg => hb g (List.mem_cons_of_mem f hg)) rest
    simp only [List.map_cons, List.flatten_cons, List.length_cons,
      List.append_assoc, decodeFixtureList, decodeFixture_encode f hf.1 hf.2,
      hrest]

theorem decodeFixtures_encode (xs : List FixtureInfo)
    (hlen : xs.length < 18446744073709551616)
    (hb : ∀ f ∈ xs, f.name.length < 18446744073709551616 ∧
      f.scope.length < 18446744073709551616) (rest : List Nat) :
    decodeFixtures (encodeFixtures xs ++ rest) = some (xs, rest) := by
  simp only [encodeFixtures, List.append_assoc, decodeFixtures,
    decodeU64_encode _ hlen, decodeFixtureList_encode xs hb rest]

theorem deserialize_serialize (p : TestPayload)
    (h1 : p.test_id < 4294967296)
    (h2 : p.file_path.length < 18446744073709551616)
    (h3 : p.test_name.length < 18446744073709551616)
    (h4 : p.fixtures.length < 18446744073709551616)
    (h5 : ∀ f ∈ p.fixtures, f.name.length < 18446744073709551616 ∧
      f.scope.length < 18446744073709551616)
    (h6 : -2147483648 ≤ p.log_fd) (h7 : p.log_fd < 2147483648)
    (h8 : p.debug_socket_path.length < 18446744073709551616)
    (rest : List Nat) :
    deserializePayload (serializePayload p ++ rest) = some (p, rest) := by
  simp only [serializePayload, List.append_assoc, deserializePayload,
    decodeU32_encode _ h1, decodeStr_encode _ h2, decodeStr_encode _ h3,
    decodeBool_encode, decodeFixtures_encode _ h4 h5,
    decodeI32_encode _ h6 h7, decodeStr_encode _ h8]

/-- C9: serializing a `TestPayload` with the session wire encoding
(bincode body behind the `u32` length prefix of `encode_with_length`)
and decoding the frame on the receiving side recovers the payload with
every field equal, provided the fields fit their Rust machine types
(`u32` test id, `i32` log fd, `u64`-length strings and sequences) and
the frame body fits the `u32` length prefix. -/
theorem C9_payload_roundtrip (p : TestPayload)
    (h1 : p.test_id < 4294967296)
    (h2 : p.file_path.length < 18446744073709551616)
    (h3 : p.test_name.length < 18446744073709551616)
    (h4 : p.fixtures.length < 18446744073709551616)
    (h5 : ∀ f ∈ p.fixtures, f.name.length < 18446744073709551616 ∧
      f.scope.length < 18446744073709551616)
    (h6 : -2147483648 ≤ p.log_fd) (h7 : p.log_fd < 2147483648)
    (h8 : p.debug_socket_path.length < 18446744073709551616)
    (h9 : (serializePayload p).length < 4294967296) :
    decodeFrame (encode_with_length p) = some p := by
  have hread : readBytes (serializePayload p).length (serializePayload p) =
      some (serializePayload p, []) := by
    have h := readBytes_append (serializePayload p) []
    rwa [List.append_nil] at h
  have hdes := deserialize_serialize p h1 h2 h3 h4 h5 h6 h7 h8 []
  rw [List.append_nil] at hdes
  simp only [encode_with_length, decodeFrame, Nat.mod_eq_of_lt h9,
    decodeU32_encode _ h9, hread, hdes]

/-- Witness for C9 at a concrete payload with one fixture, a negative
log fd and an empty debug-socket path. -/
theorem C9_payload_roundtrip_witness :
    decodeFrame (encode_with_length
      (TestPayload.mk 42 [116, 97] [98] true [FixtureInfo.mk [100, 98] [109]]
        (-1) [])) =
      some (TestPayload.mk 42 [116, 97] [98] true
        [FixtureInfo.mk [100, 98] [109]] (-1) []) :=
  C9_payload_roundtrip
    (TestPayload.mk 42 [116, 97] [98] true [FixtureInfo.mk [100, 98] [109]]
      (-1) [])
    (by decide) (by decide) (by decide) (by decide)
    (by decide) (by decide) (by decide) (by decide) (by decide)

end Tach
